import Mathlib

/-!
# ComfyNotch — `Managers/Messages/Messages.c`

A shallow embedding of the message helper of ComfyNotch and proofs about it.

* `base64_encode` is embedded at the level of the C memory accesses: the input is read
  through `load` (which faults on an index outside the input), the output block obtained from
  `malloc` is written through `store` (which faults on an index outside the block), and the
  returned pointer is read back as a C string by `c_string`.  Two ghost fields of `Mem` record
  the indices that were read and written.
* The SQLite store is a value of `Db`: the rows of the table `message`, the outcome of
  `sqlite3_prepare_v2` for each of the four fixed statements, and the rows `sqlite3_step`
  returns for each bound statement before its first result other than `SQLITE_ROW` (the end
  of the rows or an error).  The relation `Db.answers` says which stepped rows the SQL
  allows; it leaves open what the SQL leaves open (the choice among equal dates, the order
  of a statement without `ORDER BY`).
* The global variables `didLoadHashMap` and the hash map of `MessageHashMap.h` are the
  fields of an explicit `Detector` state that `has_chat_db_changed` transforms; the static
  buffer of `get_last_message_text` is an explicit argument and result of that function.

Sizes (`size_t`, 64 bits) are natural numbers: a C object has at most `2 ^ 63 - 1` bytes, and
for `n < 2 ^ 63` the values `n + 2`, `i + 2` and `4 * ((n + 2) / 3) + 1` are all below
`2 ^ 64`, so no size computation of `base64_encode` wraps (its only caller passes an `int`).
The `uint32_t triple` holds at most 24 bits.  The run of `base64_encode` is the one in which
its `malloc` succeeds; its caller `get_last_message_text` takes the outcome of that
allocation as an input.  SQLite integers are mathematical integers; the one narrowing read,
`sqlite3_column_int`, is `column_int`.
-/

namespace Messages

/-! ## Bytes and C strings -/

/-- An `unsigned char`. -/
abbrev Byte := Fin 256

/-- The byte with value `n % 256`. -/
def to_byte (n : Nat) : Byte := ⟨n % 256, Nat.mod_lt _ (by decide)⟩

/-- The terminator `'\0'`. -/
def NUL : Char := Char.ofNat 0

/-- The byte a `char` of the ASCII range occupies. -/
def char_byte (c : Char) : Byte := to_byte c.toNat

/-- The C string a pointer to these bytes denotes: the bytes before the first zero byte. -/
def cstr (p : List Byte) : List Byte := p.takeWhile (fun b => b ≠ 0)

/-- The C function `strlen`. -/
def strlen (p : List Byte) : Nat := (cstr p).length

/-- The call `strncpy(dest, src, n)` into a zero-filled array longer than `n`: the string left in
`dest`. -/
def strncpy (src : List Byte) (n : Nat) : List Byte := (cstr src).take n

/-- The call `strncat(dest, src, n)`: the string left in `dest` (at most `n` bytes are appended). -/
def strncat (dest src : List Byte) (n : Nat) : List Byte := dest ++ (cstr src).take n

/-! ## `base64_encode` -/

/-- The table `static const char encoding_table[]`. -/
def encoding_table : List Char :=
  "ABCDEFGHIJKLMNOPQRSTUVWXYZabcdefghijklmnopqrstuvwxyz0123456789+/".toList

/-- The read `encoding_table[k]`; index 64 is the terminator of the string literal. -/
def table_at (k : Nat) : Char := encoding_table.getD k NUL

/-- The memory `base64_encode` works on: the block `encoded_data` returned by `malloc`
(`none` is a byte that was never written), and two ghost logs: the indices of `data` that
were read and the indices of `encoded_data` that were written, in program order. -/
structure Mem where
  encoded_data : List (Option Char)
  reads : List Nat
  writes : List Nat
deriving DecidableEq

/-- The read `data[i]`: faults (`none`) when `i` is not an index of the input. -/
def load (data : List Byte) (i : Nat) (m : Mem) : Option (Nat × Mem) :=
  match data[i]? with
  | some b => some (b.val, { m with reads := m.reads ++ [i] })
  | none => none

/-- The write `encoded_data[j] = c`: faults (`none`) when `j` is outside the allocated block. -/
def store (j : Nat) (c : Char) (m : Mem) : Option Mem :=
  if j < m.encoded_data.length then
    some { m with encoded_data := m.encoded_data.set j (some c), writes := m.writes ++ [j] }
  else none

/-- The call `malloc(size)`: a block of `size` uninitialised bytes. -/
def malloc (size : Nat) : Mem :=
  { encoded_data := List.replicate size none, reads := [], writes := [] }

/-- The loop `while (i + 2 < input_length) { ... i += 3; }` with the four `j++` writes of its
body.  `fuel` bounds the number of iterations; running out of it is `none`. -/
def encode_triples (data : List Byte) : Nat → Nat → Nat → Mem → Option (Nat × Nat × Mem)
  | 0, i, j, m => if i + 2 < data.length then none else some (i, j, m)
  | fuel + 1, i, j, m =>
    if i + 2 < data.length then
      (load data i m).bind fun (a, m) =>
      (load data (i + 1) m).bind fun (b, m) =>
      (load data (i + 2) m).bind fun (c, m) =>
      let triple := (a <<< 16) ||| (b <<< 8) ||| c
      (store j (table_at ((triple >>> 18) &&& 0x3F)) m).bind fun m =>
      (store (j + 1) (table_at ((triple >>> 12) &&& 0x3F)) m).bind fun m =>
      (store (j + 2) (table_at ((triple >>> 6) &&& 0x3F)) m).bind fun m =>
      (store (j + 3) (table_at (triple &&& 0x3F)) m).bind fun m =>
      encode_triples data fuel (i + 3) (j + 4) m
    else some (i, j, m)

/-- The block `if (i < input_length) { ... }` that encodes the remaining one or two bytes. -/
def encode_tail (data : List Byte) (i j : Nat) (m : Mem) : Option (Nat × Mem) :=
  if i < data.length then
    (load data i m).bind fun (a, m) =>
    let triple := a <<< 16
    (if i + 1 < data.length then
      (load data (i + 1) m).bind fun (b, m) => some (triple ||| (b <<< 8), m)
     else some (triple, m)).bind fun (triple, m) =>
    (store j (table_at ((triple >>> 18) &&& 0x3F)) m).bind fun m =>
    (store (j + 1) (table_at ((triple >>> 12) &&& 0x3F)) m).bind fun m =>
    (store (j + 2) (if i + 1 < data.length then table_at ((triple >>> 6) &&& 0x3F) else '=')
      m).bind fun m =>
    (store (j + 3) '=' m).bind fun m =>
    some (j + 4, m)
  else some (j, m)

/-- What follows the loop in `base64_encode`: the padded tail and the terminator written at
`encoded_data[output_length]`. -/
def finish (data : List Byte) (output_length : Nat) : Nat × Nat × Mem → Option Mem :=
  fun (i, j, m) => (encode_tail data i j m).bind fun (_, m) => store output_length NUL m

/-- The body of `base64_encode` as a run over `Mem`; the loop gets `input_length` units of
fuel (it needs `input_length / 3`). -/
def base64_encode_mem (data : List Byte) : Option Mem :=
  let input_length := data.length
  if input_length = 0 then
    store 0 NUL (malloc 1)
  else
    let output_length := 4 * ((input_length + 2) / 3)
    (encode_triples data input_length 0 0 (malloc (output_length + 1))).bind
      (finish data output_length)

/-- The C string at the start of a block: the characters before the first `'\0'`.  Reading a
byte that was never written, or running off the block, is `none`. -/
def c_string : List (Option Char) → Option (List Char)
  | [] => none
  | none :: _ => none
  | some c :: rest => if c = NUL then some [] else (c_string rest).map (fun s => c :: s)

/-- The function `base64_encode`: the string its result points to (`none`: no string). -/
def base64_encode (data : List Byte) : Option (List Char) :=
  (base64_encode_mem data).bind fun m => c_string m.encoded_data

/-- Four symbols the loop body writes for one full 3-byte group. -/
def quad (a b c : Nat) : List Char :=
  let triple := (a <<< 16) ||| (b <<< 8) ||| c
  [table_at ((triple >>> 18) &&& 0x3F), table_at ((triple >>> 12) &&& 0x3F),
   table_at ((triple >>> 6) &&& 0x3F), table_at (triple &&& 0x3F)]

/-- Four characters the tail block writes when one byte remains. -/
def tail1 (a : Nat) : List Char :=
  let triple := a <<< 16
  [table_at ((triple >>> 18) &&& 0x3F), table_at ((triple >>> 12) &&& 0x3F), '=', '=']

/-- Four characters the tail block writes when two bytes remain. -/
def tail2 (a b : Nat) : List Char :=
  let triple := (a <<< 16) ||| (b <<< 8)
  [table_at ((triple >>> 18) &&& 0x3F), table_at ((triple >>> 12) &&& 0x3F),
   table_at ((triple >>> 6) &&& 0x3F), '=']

/-- The characters `base64_encode` writes, group by group (shown below to be the content of
`encoded_data` after the run). -/
def encoded_chars : List Byte → List Char
  | [] => []
  | [a] => tail1 a.val
  | [a, b] => tail2 a.val b.val
  | a :: b :: c :: rest => quad a.val b.val c.val ++ encoded_chars rest

/-! ## RFC 4648, written from the standard (not from the code) -/

/-- The Base64 alphabet of RFC 4648, table 1: values 0..25 are `A`..`Z`, 26..51 are
`a`..`z`, 52..61 are `0`..`9`, 62 is `+`, 63 is `/`. -/
def rfc4648_symbol (v : Nat) : Char :=
  if v < 26 then Char.ofNat (65 + v)
  else if v < 52 then Char.ofNat (97 + (v - 26))
  else if v < 62 then Char.ofNat (48 + (v - 52))
  else if v = 62 then '+'
  else '/'

/-- Standard Base64 encoding: a 24-bit group of three bytes gives four 6-bit symbols, most
significant first; a final group of one byte (8 bits, padded with four zero bits) gives two
symbols and `==`; a final group of two bytes (16 bits, padded with two zero bits) gives three
symbols and `=`. -/
def rfc4648_encode : List Byte → List Char
  | [] => []
  | [a] =>
    let n := a.val * 16
    [rfc4648_symbol (n / 64 % 64), rfc4648_symbol (n % 64), '=', '=']
  | [a, b] =>
    let n := (a.val * 256 + b.val) * 4
    [rfc4648_symbol (n / 4096 % 64), rfc4648_symbol (n / 64 % 64), rfc4648_symbol (n % 64), '=']
  | a :: b :: c :: rest =>
    let n := a.val * 65536 + b.val * 256 + c.val
    [rfc4648_symbol (n / 262144 % 64), rfc4648_symbol (n / 4096 % 64),
     rfc4648_symbol (n / 64 % 64), rfc4648_symbol (n % 64)] ++ rfc4648_encode rest

/-- The value of a symbol of the Base64 alphabet; `none` for any other character. -/
def rfc4648_value (c : Char) : Option Nat :=
  let n := c.toNat
  if 65 ≤ n ∧ n ≤ 90 then some (n - 65)
  else if 97 ≤ n ∧ n ≤ 122 then some (n - 97 + 26)
  else if 48 ≤ n ∧ n ≤ 57 then some (n - 48 + 52)
  else if c = '+' then some 62
  else if c = '/' then some 63
  else none

/-- Standard Base64 decoder: the input is a sequence of 4-character groups; a group of four
symbols gives three bytes; padding may only end the last group, where `xx==` gives one byte
and `xxx=` gives two.  Anything else is rejected. -/
def rfc4648_decode : List Char → Option (List Byte)
  | [] => some []
  | c0 :: c1 :: c2 :: c3 :: rest =>
    if c3 = '=' then
      if rest ≠ [] then none
      else if c2 = '=' then
        (rfc4648_value c0).bind fun v0 =>
        (rfc4648_value c1).bind fun v1 =>
        some [to_byte (v0 * 4 + v1 / 16)]
      else
        (rfc4648_value c0).bind fun v0 =>
        (rfc4648_value c1).bind fun v1 =>
        (rfc4648_value c2).bind fun v2 =>
        some [to_byte (v0 * 4 + v1 / 16), to_byte (v1 % 16 * 16 + v2 / 4)]
    else
      (rfc4648_value c0).bind fun v0 =>
      (rfc4648_value c1).bind fun v1 =>
      (rfc4648_value c2).bind fun v2 =>
      (rfc4648_value c3).bind fun v3 =>
      (rfc4648_decode rest).bind fun bytes =>
      some (to_byte (v0 * 4 + v1 / 16) :: to_byte (v1 % 16 * 16 + v2 / 4)
        :: to_byte (v2 % 4 * 64 + v3) :: bytes)
  | _ => none

/-! ## The message store -/

/-- One row of the table `message`, with the columns the four statements use.  `guid` and
`date` are never SQL NULL; `text` and `attributedBody` may be (`none`).  Integers are the
64-bit values SQLite stores. -/
structure Row where
  guid : List Byte
  handle_id : Int
  date : Int
  is_from_me : Int
  text : Option (List Byte)
  attributedBody : Option (List Byte)
deriving DecidableEq

/-- The four SQL statements of the file, named after what they select:
`SELECT text, attributedBody ... WHERE handle_id = ? ORDER BY date DESC LIMIT 1` in
`get_last_message_text`, `SELECT date ... WHERE handle_id = ? ORDER BY date DESC LIMIT 1` in
`get_last_talked_to`, `SELECT guid, date, is_from_me ... ORDER BY date DESC LIMIT 1` in
`has_chat_db_changed` and `SELECT guid, date, is_from_me ... WHERE date > ? LIMIT 50` in
`preload_hashmap`. -/
inductive Statement where
  | last_message_text
  | last_talked_to
  | latest_message
  | recent_messages
deriving DecidableEq

/-- A prepared statement with its `?` bound by `sqlite3_bind_int64`. -/
inductive Query where
  | last_message_text (handle_id : Int)
  | last_talked_to (handle_id : Int)
  | latest_message
  | recent_messages (last_known_time : Int)
deriving DecidableEq

/-- What a `sqlite3 *db` does during one call of a function of this file: the rows of
`message`; whether `sqlite3_prepare_v2` returns `SQLITE_OK` for each statement; and, for each
bound statement, the rows that successive calls of `sqlite3_step` return with `SQLITE_ROW`,
up to the first call that returns anything else, be it `SQLITE_DONE` after the last row or an
error such as `SQLITE_BUSY` at any point.  The code only tests `== SQLITE_ROW`, so the two
endings are not told apart.  Which rows may be stepped is the relation `Db.answers`. -/
structure Db where
  message : List Row
  prepare_ok : Statement → Bool
  stepped : Query → List Row

/-- A row of greatest date among `rows`. -/
def newest_of (rows : List Row) (r : Row) : Prop :=
  r ∈ rows ∧ ∀ r' ∈ rows, r'.date ≤ r.date

/-- The rows a statement ending in `ORDER BY date DESC LIMIT 1` may step through, when `rows`
are the rows its `WHERE` clause keeps: no row (there is none, or the step failed), or one row
of greatest date, whichever the engine picks among equal dates. -/
def steps_newest (rows : List Row) : List Row → Prop
  | [] => True
  | [r] => newest_of rows r
  | _ :: _ :: _ => False

/-- The rows stepped for a query are rows the SQL statement may return on the table:
for the three `ORDER BY date DESC LIMIT 1` statements see `steps_newest`; for
`WHERE date > ? LIMIT 50` at most 50 of the rows with a greater date, in any order (the
statement has no `ORDER BY`), fewer when a step fails. -/
def Db.answers (db : Db) : Query → Prop
  | .last_message_text h =>
    steps_newest (db.message.filter fun r => r.handle_id = h)
      (db.stepped (.last_message_text h))
  | .last_talked_to h =>
    steps_newest (db.message.filter fun r => r.handle_id = h) (db.stepped (.last_talked_to h))
  | .latest_message => steps_newest db.message (db.stepped .latest_message)
  | .recent_messages t =>
    (db.stepped (.recent_messages t)).length ≤ 50
    ∧ List.Subperm (db.stepped (.recent_messages t)) (db.message.filter fun r => r.date > t)

instance (rows : List Row) (r : Row) : Decidable (newest_of rows r) := by
  unfold newest_of; infer_instance

instance (rows stepped : List Row) : Decidable (steps_newest rows stepped) :=
  match stepped with
  | [] => isTrue trivial
  | [r] => inferInstanceAs (Decidable (newest_of rows r))
  | _ :: _ :: _ => isFalse (fun h => h)

instance (db : Db) (q : Query) : Decidable (db.answers q) := by
  cases q <;> unfold Db.answers <;> infer_instance

/-- The call `sqlite3_column_int`: the low 32 bits of the stored integer, as a signed
`int`. -/
def column_int (v : Int) : Int := (v + 2147483648) % 4294967296 - 2147483648

/-! ## The seen-message cache -/

/-- Modelled from the spec: the struct `MessageMeta` of `MessageMeta.h` (not under src/), a
timestamp and a boolean sender flag. -/
structure MessageMeta where
  date : Int
  isFromMe : Bool
deriving DecidableEq

/-- Modelled from the spec: the process-wide hash map of `MessageHashMap.h` (not under
src/), a mapping from identifier to `MessageMeta` with at most one entry per identifier and
no eviction.  Entries are kept in insertion order. -/
abbrev Cache := List (List Byte × MessageMeta)

/-- Modelled from the spec: `hashmap_get` of `MessageHashMap.h` (not under src/),
`get(identifier) -> Option<MessageRecord>`. -/
def hashmap_get (key : List Byte) : Cache → Option MessageMeta
  | [] => none
  | (k, v) :: rest => if k = key then some v else hashmap_get key rest

/-- Modelled from the spec: `hashmap_put` of `MessageHashMap.h` (not under src/),
`put(identifier, record)`: inserts or overwrites. -/
def hashmap_put (key : List Byte) (value : MessageMeta) : Cache → Cache
  | [] => [(key, value)]
  | (k, v) :: rest =>
    if k = key then (key, value) :: rest else (k, v) :: hashmap_put key value rest

/-! ## The store accessors -/

/-- The value `sizeof(buffer)` of the static buffer of `get_last_message_text`. -/
def sizeof_buffer : Nat := 4096

/-- The string literal `"__BASE64__:"`. -/
def base64_marker : List Byte := "__BASE64__:".toList.map char_byte

/-- The call `memset(buffer, 0, sizeof(buffer))`: the string the buffer holds afterwards,
whatever it held before. -/
def memset (_buffer : List Byte) : List Byte := []

/-- The function `get_last_message_text`.  The `static char buffer[4096]` is process state:
`buffer` is the C string it holds on entry (the one an earlier call returned a pointer to,
empty at process start), and the second component of the result is the string it holds on
return; between calls the array is that string followed by zero bytes.  The first component
is the string the returned pointer denotes, `none` for `NULL`.  `malloc_ok` tells whether the
allocation inside `base64_encode` succeeds; when it fails `base64_encode` returns `NULL`. -/
def get_last_message_text (db : Db) (handle_id : Int) (malloc_ok : Bool)
    (buffer : List Byte) : Option (List Byte) × List Byte :=
  let buffer := memset buffer
  if db.prepare_ok .last_message_text = false then (none, buffer)
  else
    let buffer :=
      match db.stepped (.last_message_text handle_id) with
      | row :: _ =>
        let text := row.text
        let blob := row.attributedBody
        let blobSize := (blob.getD []).length
        if text.isSome ∧ strlen (text.getD []) > 0 then
          strncpy (text.getD []) (sizeof_buffer - 1)
        else if blob.isSome ∧ blobSize > 0 then
          let buffer := strncat buffer base64_marker (sizeof_buffer - strlen buffer - 1)
          match (if malloc_ok then base64_encode (blob.getD []) else none) with
          | some encoded =>
            strncat buffer (encoded.map char_byte) (sizeof_buffer - strlen buffer - 1)
          | none => buffer
        else buffer
      | [] => buffer
    (if buffer ≠ [] then some buffer else none, buffer)

/-- The function `get_last_talked_to`: the date of the row its step returns, -1 when the
step returns no row or the statement cannot be prepared.  It touches no process state. -/
def get_last_talked_to (db : Db) (handle_id : Int) : Int :=
  if db.prepare_ok .last_talked_to = false then -1
  else
    match db.stepped (.last_talked_to handle_id) with
    | row :: _ => row.date
    | [] => -1

/-! ## The change detector -/

/-- The process state of the detector: the hash map, the latch `didLoadHashMap`, and a ghost
log of the calls of `preload_hashmap` (the `last_known_time` of each, in order). -/
structure Detector where
  cache : Cache
  didLoadHashMap : Bool
  preloads : List Int
deriving DecidableEq

/-- The state at process start: empty map, `didLoadHashMap = false`. -/
def Detector.start : Detector := { cache := [], didLoadHashMap := false, preloads := [] }

/-- The function `preload_hashmap`, as a transformation of the hash map: the loop
`while (sqlite3_step(stmt) == SQLITE_ROW)` runs over the rows stepped before the first other
result. -/
def preload_hashmap (db : Db) (last_known_time : Int) (cache : Cache) : Cache :=
  if db.prepare_ok .recent_messages = false then cache
  else
    (db.stepped (.recent_messages last_known_time)).foldl
      (fun cache row =>
        let guid := cstr row.guid
        let date := row.date
        let is_from_me := column_int row.is_from_me
        let meta : MessageMeta := { date := date, isFromMe := decide (is_from_me = 1) }
        hashmap_put guid meta cache)
      cache

/-- The block `if (!didLoadHashMap) { preload_hashmap(db, last_known_time);
didLoadHashMap = true; }`. -/
def preload_once (db : Db) (last_known_time : Int) (s : Detector) : Detector :=
  if s.didLoadHashMap = false then
    { cache := preload_hashmap db last_known_time s.cache,
      didLoadHashMap := true,
      preloads := s.preloads ++ [last_known_time] }
  else s

/-- The function `has_chat_db_changed`: the returned `int` and the process state after the
call.  The row branch is taken only when `sqlite3_step` returns `SQLITE_ROW`; the `malloc`
of `guidCopy`, which the code does not check, is taken to succeed. -/
def has_chat_db_changed (db : Db) (last_known_time : Int) (s : Detector) : Int × Detector :=
  if db.prepare_ok .latest_message = false then (0, s)
  else
    let s := preload_once db last_known_time s
    match db.stepped .latest_message with
    | row :: _ =>
      let guidCopy := cstr row.guid
      let date := row.date
      let is_from_me := column_int row.is_from_me
      let meta : MessageMeta := { date := date, isFromMe := decide (is_from_me ≠ 0) }
      match hashmap_get guidCopy s.cache with
      | none =>
        let s := { s with cache := hashmap_put guidCopy meta s.cache }
        let result : Int := if meta.isFromMe then 0 else 1
        (result, s)
      | some _ => (0, s)
    | [] => (0, s)

/-- A sequence of calls of `has_chat_db_changed`, each with its own database behaviour and
threshold: the state after the last one. -/
def poll (s : Detector) : List (Db × Int) → Detector
  | [] => s
  | (db, last_known_time) :: calls => poll (has_chat_db_changed db last_known_time s).2 calls

/-- The invariant behind the one-shot latch: `preload_hashmap` was called at most once, and
not at all while the latch is unset. -/
def latch_inv (s : Detector) : Prop :=
  s.preloads.length ≤ 1 ∧ (s.didLoadHashMap = false → s.preloads = [])

/-- The cache `has_chat_db_changed` looks the identifier up in: the caller's cache when the
latch is set, the preloaded cache on the call that sets the latch. -/
def cache_at_lookup (db : Db) (last_known_time : Int) (s : Detector) : Cache :=
  if s.didLoadHashMap = true then s.cache else preload_hashmap db last_known_time s.cache

/-! ## Concrete stores and states used in the examples -/

/-- A received message with plain text `hi`. -/
def incoming_row : Row :=
  { guid := [103, 49], handle_id := 7, date := 10, is_from_me := 0,
    text := some [104, 105], attributedBody := none }

/-- A sent message without plain text, with a three-byte `attributedBody`. -/
def outgoing_row : Row :=
  { guid := [103, 50], handle_id := 7, date := 20, is_from_me := 1,
    text := none, attributedBody := some [0, 1, 2] }

/-- A received message with neither plain text nor `attributedBody`. -/
def bare_row : Row :=
  { guid := [103, 51], handle_id := 9, date := 30, is_from_me := 0,
    text := none, attributedBody := none }

/-- A received message whose plain text is 4096 letters `a`. -/
def long_row : Row :=
  { guid := [103, 52], handle_id := 5, date := 40, is_from_me := 0,
    text := some (List.replicate 4096 97), attributedBody := none }

/-- One engine's choice for `ORDER BY date DESC LIMIT 1`: a row of greatest date, the
earliest stored one among equals. -/
def first_newest : List Row → List Row
  | [] => []
  | r :: rs =>
    match first_newest rs with
    | r' :: _ => if r'.date > r.date then [r'] else [r]
    | [] => [r]

/-- A database on which every statement can be prepared and no step fails; rows are visited
in storage order. -/
def open_db (rows : List Row) : Db :=
  { message := rows
    prepare_ok := fun _ => true
    stepped := fun q =>
      match q with
      | .last_message_text h => first_newest (rows.filter fun r => r.handle_id = h)
      | .last_talked_to h => first_newest (rows.filter fun r => r.handle_id = h)
      | .latest_message => first_newest rows
      | .recent_messages t => (rows.filter fun r => r.date > t).take 50 }

/-- A database on which every statement can be prepared and every step fails
(`SQLITE_BUSY`). -/
def busy_db (rows : List Row) : Db :=
  { message := rows, prepare_ok := fun _ => true, stepped := fun _ => [] }

/-- A database on which no statement can be prepared. -/
def locked_db (rows : List Row) : Db :=
  { message := rows, prepare_ok := fun _ => false, stepped := fun _ => [] }

/-- A detector whose latch is set and whose cache is empty. -/
def Detector.ready : Detector := { cache := [], didLoadHashMap := true, preloads := [] }

/-! ## Lemmas on the run of `base64_encode` -/

theorem load_at (pre rest : List Byte) (x : Byte) (k : Nat) (m : Mem)
    (h : rest[k]? = some x) :
    load (pre ++ rest) (pre.length + k) m
      = some (x.val, { m with reads := m.reads ++ [pre.length + k] }) := by
  unfold load
  rw [List.getElem?_append_right (Nat.le_add_right _ _)]
  simp [h]

theorem set_fresh (out : List Char) (r : Nat) (c : Char) :
    (out.map some ++ List.replicate (r + 1) none).set out.length (some c)
      = (out ++ [c]).map some ++ List.replicate r none := by
  induction out with
  | nil => simp [List.replicate_succ]
  | cons x xs ih => simpa using ih

theorem store_at (out : List Char) (r : Nat) (c : Char) (rd wr : List Nat) (j : Nat)
    (hj : j = out.length) :
    store j c ⟨out.map some ++ List.replicate (r + 1) none, rd, wr⟩
      = some ⟨(out ++ [c]).map some ++ List.replicate r none, rd, wr ++ [j]⟩ := by
  subst hj
  unfold store
  have hlt : out.length < (out.map some ++ List.replicate (r + 1) (none : Option Char)).length := by
    simp
  rw [if_pos hlt]
  simp only [set_fresh]

theorem encoded_chars_length (data : List Byte) :
    (encoded_chars data).length = 4 * ((data.length + 2) / 3) := by
  induction data using encoded_chars.induct with
  | case1 => rfl
  | case2 a => simp [encoded_chars, tail1]
  | case3 a b => simp [encoded_chars, tail2]
  | case4 a b c rest ih =>
    simp only [encoded_chars, List.length_append, ih, quad, List.length_cons, List.length_nil]
    omega


theorem store_next (out : List Char) (r : Nat) (c : Char) (rd wr : List Nat) (j : Nat)
    (hj : j = out.length) (hr : 0 < r) :
    store j c ⟨out.map some ++ List.replicate r none, rd, wr⟩
      = some ⟨(out ++ [c]).map some ++ List.replicate (r - 1) none, rd, wr ++ [j]⟩ := by
  obtain ⟨k, rfl⟩ : ∃ k, r = k + 1 := ⟨r - 1, by omega⟩
  simpa using store_at out k c rd wr j hj

theorem store_four (out : List Char) (r : Nat) (c1 c2 c3 c4 : Char) (rd wr : List Nat) (j : Nat)
    (hj : j = out.length) (hr : 4 ≤ r) {β : Type} (K : Mem → Option β) :
    ((store j c1 ⟨out.map some ++ List.replicate r none, rd, wr⟩).bind fun m =>
      (store (j + 1) c2 m).bind fun m =>
      (store (j + 2) c3 m).bind fun m =>
      (store (j + 3) c4 m).bind K)
      = K ⟨(out ++ [c1, c2, c3, c4]).map some ++ List.replicate (r - 4) none, rd,
            wr ++ [j, j + 1, j + 2, j + 3]⟩ := by
  rw [store_next out r c1 rd wr j hj (by omega)]
  simp only [Option.some_bind, Option.bind_some]
  rw [store_next (out ++ [c1]) (r - 1) c2 rd _ (j + 1) (by simp [hj]) (by omega)]
  simp only [Option.some_bind]
  rw [store_next (out ++ [c1] ++ [c2]) (r - 1 - 1) c3 rd _ (j + 2) (by simp [hj]) (by omega)]
  simp only [Option.some_bind]
  rw [store_next (out ++ [c1] ++ [c2] ++ [c3]) (r - 1 - 1 - 1) c4 rd _ (j + 3) (by simp [hj])
    (by omega)]
  simp only [Option.some_bind]
  have e : r - 1 - 1 - 1 - 1 = r - 4 := by omega
  simp [e]

theorem range_four (j k : Nat) :
    List.range' j (k + 4) = [j, j + 1, j + 2, j + 3] ++ List.range' (j + 4) k := by
  simp [List.range'_succ]

theorem range_three (j k : Nat) :
    List.range' j (k + 3) = [j, j + 1, j + 2] ++ List.range' (j + 3) k := by
  simp [List.range'_succ]

theorem encode_run_spec (data : List Byte) (L : Nat) :
    ∀ (fuel : Nat) (pre rest : List Byte) (out : List Char) (rd wr : List Nat),
      data = pre ++ rest → rest.length ≤ fuel →
      L = out.length + 4 * ((rest.length + 2) / 3) →
      (encode_triples data fuel pre.length out.length
          ⟨out.map some ++ List.replicate (4 * ((rest.length + 2) / 3) + 1) none, rd, wr⟩).bind
        (finish data L)
      = some ⟨(out ++ encoded_chars rest).map some ++ [some NUL],
              rd ++ List.range' pre.length rest.length,
              wr ++ List.range' out.length (4 * ((rest.length + 2) / 3) + 1)⟩ := by
  intro fuel
  induction fuel with
  | zero =>
    intro pre rest out rd wr hd hf hL
    have hrest : rest = [] := List.length_eq_zero.mp (Nat.le_zero.mp hf)
    subst hrest
    subst hd
    simp [encode_triples, finish, encode_tail] at hL ⊢
    subst hL
    have := store_at out 0 NUL rd wr out.length rfl
    simpa using this
  | succ fuel ih =>
    intro pre rest out rd wr hd hf hL
    rcases rest with _ | ⟨a, _ | ⟨b, _ | ⟨c, rest⟩⟩⟩
    · subst hd
      simp [encode_triples, finish, encode_tail] at hL ⊢
      subst hL
      have := store_at out 0 NUL rd wr out.length rfl
      simpa using this
    · subst hd
      have hl := load_at pre [a] a 0 ⟨out.map some ++ List.replicate 5 none, rd, wr⟩ rfl
      simp only [Nat.add_zero] at hl
      simp only [encode_triples, finish, encode_tail, List.length_append, List.length_cons,
        List.length_nil] at hL ⊢
      simp only [show ¬ (pre.length + 2 < pre.length + (0 + 1)) by omega,
        show pre.length < pre.length + (0 + 1) by omega,
        show ¬ (pre.length + 1 < pre.length + (0 + 1)) by omega, if_true, if_false,
        Option.some_bind, show 4 * ((0 + 1 + 2) / 3) + 1 = 5 by rfl, hl]
      rw [store_four out 5 _ _ _ _ _ wr out.length rfl (by omega)]
      simp only [Option.some_bind]
      rw [store_next _ _ NUL _ _ L (by simp [hL]) (by omega)]
      simp [encoded_chars, tail1, List.range'_succ, hL]
    · subst hd
      have hl0 := load_at pre [a, b] a 0 ⟨out.map some ++ List.replicate 5 none, rd, wr⟩ rfl
      have hl1 := load_at pre [a, b] b 1
        ⟨out.map some ++ List.replicate 5 none, rd ++ [pre.length], wr⟩ rfl
      simp only [Nat.add_zero] at hl0
      simp only [encode_triples, finish, encode_tail, List.length_append, List.length_cons,
        List.length_nil] at hL ⊢
      simp only [show ¬ (pre.length + 2 < pre.length + (0 + 1 + 1)) by omega,
        show pre.length < pre.length + (0 + 1 + 1) by omega,
        show pre.length + 1 < pre.length + (0 + 1 + 1) by omega, if_true, if_false,
        Option.some_bind, show 4 * ((0 + 1 + 1 + 2) / 3) + 1 = 5 by rfl, hl0, hl1]
      rw [store_four out 5 _ _ _ _ _ wr out.length rfl (by omega)]
      simp only [Option.some_bind]
      rw [store_next _ _ NUL _ _ L (by simp [hL]) (by omega)]
      simp [encoded_chars, tail2, List.range'_succ, hL]
    · subst hd
      have hcap : 4 * (((a :: b :: c :: rest).length + 2) / 3) + 1
          = 4 * ((rest.length + 2) / 3) + 1 + 4 := by
        simp only [List.length_cons]; omega
      rw [hcap]
      have hl0 := load_at pre (a :: b :: c :: rest) a 0
        ⟨out.map some ++ List.replicate (4 * ((rest.length + 2) / 3) + 1 + 4) none, rd, wr⟩ rfl
      have hl1 := load_at pre (a :: b :: c :: rest) b 1
        ⟨out.map some ++ List.replicate (4 * ((rest.length + 2) / 3) + 1 + 4) none,
          rd ++ [pre.length], wr⟩ rfl
      have hl2 := load_at pre (a :: b :: c :: rest) c 2
        ⟨out.map some ++ List.replicate (4 * ((rest.length + 2) / 3) + 1 + 4) none,
          rd ++ [pre.length] ++ [pre.length + 1], wr⟩ (by simp)
      simp only [Nat.add_zero] at hl0
      have hcond : pre.length + 2 < (pre ++ a :: b :: c :: rest).length := by
        simp only [List.length_append, List.length_cons]; omega
      simp only [encode_triples, if_pos hcond, hl0, hl1, hl2, Option.some_bind]
      rw [store_four out _ _ _ _ _ _ wr out.length rfl (by omega)]
      have hpre : pre ++ a :: b :: c :: rest = (pre ++ [a, b, c]) ++ rest := by simp
      have hlen : pre.length + 3 = (pre ++ [a, b, c]).length := by simp
      have hout : out.length + 4 = (out ++ quad a.val b.val c.val).length := by simp [quad]
      have hL2 : L = (out ++ quad a.val b.val c.val).length + 4 * ((rest.length + 2) / 3) := by
        rw [← hout, hL]; simp only [List.length_cons]; omega
      have := ih (pre ++ [a, b, c]) rest (out ++ quad a.val b.val c.val)
        (rd ++ [pre.length] ++ [pre.length + 1] ++ [pre.length + 2])
        (wr ++ [out.length, out.length + 1, out.length + 2, out.length + 3])
        hpre (by simp only [List.length_cons] at hf; omega) hL2
      rw [← hlen, ← hout] at this
      simp only [Nat.add_sub_cancel]
      rw [show (quad a.val b.val c.val) = [_, _, _, _] from rfl] at this
      rw [this]
      simp [encoded_chars, quad, List.range'_succ, Nat.add_assoc]

theorem land63 (x : Nat) : x &&& 0x3F = x % 64 := Nat.and_pow_two_sub_one_eq_mod x 6

theorem pair_eq (a b : Nat) (hb : b < 256) :
    (a <<< 16) ||| (b <<< 8) = a * 65536 + b * 256 := by
  rw [Nat.shiftLeft_eq, Nat.shiftLeft_eq, Nat.mul_comm a (2 ^ 16)]
  rw [← Nat.mul_add_lt_is_or (by omega) a]

theorem triple_eq (a b c : Nat) (hb : b < 256) (hc : c < 256) :
    (a <<< 16) ||| (b <<< 8) ||| c = a * 65536 + b * 256 + c := by
  have h2 : a * 65536 + b * 256 = 2 ^ 8 * (a * 256 + b) := by omega
  rw [pair_eq a b hb, h2, ← Nat.mul_add_lt_is_or (by omega) _]

theorem quad_eq (a b c : Nat) (ha : a < 256) (hb : b < 256) (hc : c < 256) :
    quad a b c = [table_at (a / 4), table_at (a % 4 * 16 + b / 16),
      table_at (b % 16 * 4 + c / 64), table_at (c % 64)] := by
  have e0 : (a * 65536 + b * 256 + c) / 2 ^ 18 % 64 = a / 4 := by omega
  have e1 : (a * 65536 + b * 256 + c) / 2 ^ 12 % 64 = a % 4 * 16 + b / 16 := by omega
  have e2 : (a * 65536 + b * 256 + c) / 2 ^ 6 % 64 = b % 16 * 4 + c / 64 := by omega
  have e3 : (a * 65536 + b * 256 + c) % 64 = c % 64 := by omega
  simp only [quad, land63, triple_eq a b c hb hc, Nat.shiftRight_eq_div_pow, e0, e1, e2, e3]

theorem tail2_eq (a b : Nat) (ha : a < 256) (hb : b < 256) :
    tail2 a b = [table_at (a / 4), table_at (a % 4 * 16 + b / 16), table_at (b % 16 * 4), '='] := by
  have h := pair_eq a b hb
  have e0 : (a * 65536 + b * 256) / 2 ^ 18 % 64 = a / 4 := by omega
  have e1 : (a * 65536 + b * 256) / 2 ^ 12 % 64 = a % 4 * 16 + b / 16 := by omega
  have e2 : (a * 65536 + b * 256) / 2 ^ 6 % 64 = b % 16 * 4 := by omega
  simp only [tail2, land63, h, Nat.shiftRight_eq_div_pow, e0, e1, e2]

theorem tail1_eq (a : Nat) (ha : a < 256) :
    tail1 a = [table_at (a / 4), table_at (a % 4 * 16), '=', '='] := by
  have e0 : a * 2 ^ 16 / 2 ^ 18 % 64 = a / 4 := by omega
  have e1 : a * 2 ^ 16 / 2 ^ 12 % 64 = a % 4 * 16 := by omega
  simp only [tail1, land63, Nat.shiftLeft_eq, Nat.shiftRight_eq_div_pow, e0, e1]

theorem base64_encode_mem_eq (data : List Byte) (h : data ≠ []) :
    base64_encode_mem data
      = some ⟨(encoded_chars data).map some ++ [some NUL], List.range data.length,
              List.range (4 * ((data.length + 2) / 3) + 1)⟩ := by
  have hlen : data.length ≠ 0 := fun h0 => h (List.length_eq_zero.mp h0)
  have := encode_run_spec data (4 * ((data.length + 2) / 3)) data.length [] data [] [] []
    rfl (Nat.le_refl _) (by simp)
  simp only [base64_encode_mem, if_neg hlen, malloc]
  simpa [List.range_eq_range'] using this

theorem base64_encode_mem_nil :
    base64_encode_mem [] = some ⟨[some NUL], [], [0]⟩ := by
  decide

theorem encoding_table_length : encoding_table.length = 64 := by decide

theorem table_at_mem (k : Nat) (hk : k < 64) : table_at k ∈ encoding_table := by
  unfold table_at
  rw [List.getD_eq_getElem _ _ (by rw [encoding_table_length]; exact hk)]
  exact List.getElem_mem _

theorem table_chars_plain :
    ∀ c ∈ encoding_table, c ≠ NUL ∧ c ≠ '=' ∧ char_byte c ≠ 0 := by
  decide

theorem mod64_lt (x : Nat) : x &&& 0x3F < 64 := by
  rw [land63]; omega

theorem quad_mem (a b c : Nat) : ∀ x ∈ quad a b c, x ∈ encoding_table := by
  intro x hx
  simp only [quad, List.mem_cons, List.mem_singleton, List.not_mem_nil, or_false] at hx
  rcases hx with rfl | rfl | rfl | rfl <;> exact table_at_mem _ (mod64_lt _)

/-- The written characters are alphabet symbols followed by the padding. -/
theorem encoded_chars_shape (data : List Byte) :
    ∃ syms, encoded_chars data = syms ++ List.replicate ((3 - data.length % 3) % 3) '='
      ∧ ∀ c ∈ syms, c ∈ encoding_table := by
  induction data using encoded_chars.induct with
  | case1 => exact ⟨[], by simp [encoded_chars], by simp⟩
  | case2 a =>
    refine ⟨[table_at (((a.val <<< 16) >>> 18) &&& 0x3F),
      table_at (((a.val <<< 16) >>> 12) &&& 0x3F)], by simp [encoded_chars, tail1], ?_⟩
    intro c hc
    simp only [List.mem_cons, List.mem_singleton, List.not_mem_nil, or_false] at hc
    rcases hc with rfl | rfl <;> exact table_at_mem _ (mod64_lt _)
  | case3 a b =>
    refine ⟨[table_at ((((a.val <<< 16) ||| (b.val <<< 8)) >>> 18) &&& 0x3F),
      table_at ((((a.val <<< 16) ||| (b.val <<< 8)) >>> 12) &&& 0x3F),
      table_at ((((a.val <<< 16) ||| (b.val <<< 8)) >>> 6) &&& 0x3F)],
      by simp [encoded_chars, tail2], ?_⟩
    intro c hc
    simp only [List.mem_cons, List.mem_singleton, List.not_mem_nil, or_false] at hc
    rcases hc with rfl | rfl | rfl <;> exact table_at_mem _ (mod64_lt _)
  | case4 a b c rest ih =>
    obtain ⟨syms, hs, hmem⟩ := ih
    refine ⟨quad a.val b.val c.val ++ syms, ?_, ?_⟩
    · have hm : (a :: b :: c :: rest).length % 3 = rest.length % 3 := by
        simp only [List.length_cons]; omega
      rw [hm, encoded_chars, hs, List.append_assoc]
    · intro x hx
      rcases List.mem_append.mp hx with hx | hx
      · exact quad_mem _ _ _ x hx
      · exact hmem x hx

theorem encoded_chars_mem (data : List Byte) :
    ∀ c ∈ encoded_chars data, c ∈ encoding_table ∨ c = '=' := by
  obtain ⟨syms, hs, hmem⟩ := encoded_chars_shape data
  intro c hc
  rw [hs] at hc
  rcases List.mem_append.mp hc with hc | hc
  · exact Or.inl (hmem c hc)
  · exact Or.inr (List.eq_of_mem_replicate hc)

theorem encoded_chars_ne_nul (data : List Byte) : ∀ c ∈ encoded_chars data, c ≠ NUL := by
  intro c hc
  rcases encoded_chars_mem data c hc with h | h
  · exact (table_chars_plain c h).1
  · subst h; decide

theorem c_string_terminated (cs : List Char) (h : ∀ c ∈ cs, c ≠ NUL) :
    c_string (cs.map some ++ [some NUL]) = some cs := by
  induction cs with
  | nil => simp [c_string]
  | cons x xs ih =>
    have hx : x ≠ NUL := h x (List.mem_cons_self _ _)
    have hxs : ∀ c ∈ xs, c ≠ NUL := fun c hc => h c (List.mem_cons_of_mem _ hc)
    simp [c_string, hx, ih hxs]

/-- The string `base64_encode` returns, in closed form. -/
theorem base64_encode_eq (data : List Byte) :
    base64_encode data = some (encoded_chars data) := by
  by_cases h : data = []
  · subst h; decide
  · simp only [base64_encode, base64_encode_mem_eq data h, Option.some_bind]
    exact c_string_terminated _ (encoded_chars_ne_nul data)


/-! ## The encoder against RFC 4648 -/

theorem table_at_eq_symbol : ∀ k, k < 64 → table_at k = rfc4648_symbol k := by
  decide

theorem value_symbol : ∀ k, k < 64 →
    rfc4648_value (rfc4648_symbol k) = some k ∧ rfc4648_symbol k ≠ '=' := by
  decide

theorem encoded_chars_eq_rfc (data : List Byte) : encoded_chars data = rfc4648_encode data := by
  induction data using encoded_chars.induct with
  | case1 => rfl
  | case2 a =>
    have ha := a.isLt
    have e0 : a.val * 16 / 64 % 64 = a.val / 4 := by omega
    have e1 : a.val * 16 % 64 = a.val % 4 * 16 := by omega
    simp only [encoded_chars, rfc4648_encode, tail1_eq a.val ha, e0, e1]
    rw [table_at_eq_symbol _ (by omega), table_at_eq_symbol _ (by omega)]
  | case3 a b =>
    have ha := a.isLt
    have hb := b.isLt
    have e0 : (a.val * 256 + b.val) * 4 / 4096 % 64 = a.val / 4 := by omega
    have e1 : (a.val * 256 + b.val) * 4 / 64 % 64 = a.val % 4 * 16 + b.val / 16 := by omega
    have e2 : (a.val * 256 + b.val) * 4 % 64 = b.val % 16 * 4 := by omega
    simp only [encoded_chars, rfc4648_encode, tail2_eq a.val b.val ha hb, e0, e1, e2]
    rw [table_at_eq_symbol _ (by omega), table_at_eq_symbol _ (by omega),
      table_at_eq_symbol _ (by omega)]
  | case4 a b c rest ih =>
    have ha := a.isLt
    have hb := b.isLt
    have hc := c.isLt
    have e0 : (a.val * 65536 + b.val * 256 + c.val) / 262144 % 64 = a.val / 4 := by omega
    have e1 : (a.val * 65536 + b.val * 256 + c.val) / 4096 % 64
        = a.val % 4 * 16 + b.val / 16 := by omega
    have e2 : (a.val * 65536 + b.val * 256 + c.val) / 64 % 64
        = b.val % 16 * 4 + c.val / 64 := by omega
    have e3 : (a.val * 65536 + b.val * 256 + c.val) % 64 = c.val % 64 := by omega
    simp only [encoded_chars, rfc4648_encode, quad_eq a.val b.val c.val ha hb hc, e0, e1, e2,
      e3, ih]
    rw [table_at_eq_symbol _ (by omega), table_at_eq_symbol _ (by omega),
      table_at_eq_symbol _ (by omega), table_at_eq_symbol _ (by omega)]

theorem to_byte_eq (x : Nat) (a : Byte) (h : x = a.val) : to_byte x = a := by
  apply Fin.ext
  simp only [to_byte, h]
  exact Nat.mod_eq_of_lt a.isLt

theorem rfc4648_decode_encode (data : List Byte) :
    rfc4648_decode (rfc4648_encode data) = some data := by
  induction data using rfc4648_encode.induct with
  | case1 => rfl
  | case2 a =>
    have ha := a.isLt
    have v0 := (value_symbol (a.val * 16 / 64 % 64) (by omega)).1
    have v1 := (value_symbol (a.val * 16 % 64) (by omega)).1
    simp only [rfc4648_encode, rfc4648_decode, v0, v1, Option.some_bind, if_true, ne_eq,
      not_true_eq_false, if_false]
    rw [to_byte_eq _ a (by omega)]
  | case3 a b =>
    have ha := a.isLt
    have hb := b.isLt
    have v0 := (value_symbol ((a.val * 256 + b.val) * 4 / 4096 % 64) (by omega)).1
    have v1 := (value_symbol ((a.val * 256 + b.val) * 4 / 64 % 64) (by omega)).1
    have v2 := value_symbol ((a.val * 256 + b.val) * 4 % 64) (by omega)
    simp only [rfc4648_encode, rfc4648_decode, v0, v1, v2.1, v2.2, Option.some_bind, if_true,
      ne_eq, not_true_eq_false, if_false]
    rw [to_byte_eq _ a (by omega), to_byte_eq _ b (by omega)]
  | case4 a b c rest ih =>
    have ha := a.isLt
    have hb := b.isLt
    have hc := c.isLt
    have v0 := (value_symbol ((a.val * 65536 + b.val * 256 + c.val) / 262144 % 64)
      (by omega)).1
    have v1 := (value_symbol ((a.val * 65536 + b.val * 256 + c.val) / 4096 % 64)
      (by omega)).1
    have v2 := (value_symbol ((a.val * 65536 + b.val * 256 + c.val) / 64 % 64) (by omega)).1
    have v3 := value_symbol ((a.val * 65536 + b.val * 256 + c.val) % 64) (by omega)
    simp only [rfc4648_encode, List.cons_append, List.nil_append, rfc4648_decode, v0, v1, v2,
      v3.1, v3.2, ih, Option.some_bind, if_false]
    rw [to_byte_eq _ a (by omega), to_byte_eq _ b (by omega), to_byte_eq _ c (by omega)]
    have hnil : ([] : List Char).append (rfc4648_encode rest) = rfc4648_encode rest := rfl
    rw [hnil, ih]
    rfl

/-! ## Claims on `base64_encode` -/

/-- C1: for every byte sequence, the empty one included, `base64_encode` returns a string,
and a standard RFC 4648 decoder applied to that string gives back exactly the original
bytes. -/
theorem base64_round_trip (data : List Byte) :
    ∃ s, base64_encode data = some s ∧ rfc4648_decode s = some data :=
  ⟨encoded_chars data, base64_encode_eq data, by
    rw [encoded_chars_eq_rfc]; exact rfc4648_decode_encode data⟩

/-- C2: for every byte sequence, `base64_encode` returns its standard Base64 encoding (RFC
4648 alphabet, 3-byte groups as four 6-bit symbols most significant first, `==` after a final
1-byte group and `=` after a final 2-byte group); the empty input gives the empty string,
`[0x00]` gives `AA==`, `[0x00, 0x01]` gives `AAE=` and `[0x00, 0x01, 0x02]` gives `AAEC`. -/
theorem base64_encode_is_standard :
    (∀ data : List Byte, base64_encode data = some (rfc4648_encode data))
    ∧ (base64_encode []).map String.mk = some ""
    ∧ (base64_encode [0x00]).map String.mk = some "AA=="
    ∧ (base64_encode [0x00, 0x01]).map String.mk = some "AAE="
    ∧ (base64_encode [0x00, 0x01, 0x02]).map String.mk = some "AAEC" := by
  refine ⟨fun data => ?_, ?_, ?_, ?_, ?_⟩
  · rw [base64_encode_eq, encoded_chars_eq_rfc]
  all_goals decide

/-- C10: for every input of length `n > 0` the run of `base64_encode` faults nowhere; it
reads exactly the input indices `0 .. n-1` (so only indices below `n`); it writes one
character at each of the indices `0 .. 4*ceil(n/3) - 1`, in this order and each once, and
after them only the terminator at `output_length = 4*ceil(n/3)`; the characters written are
alphabet symbols followed by `(3 - n mod 3) mod 3` characters `=`, and `=` is not an alphabet
symbol. -/
theorem base64_encode_writes (data : List Byte) (hn : 0 < data.length) :
    ∃ m syms, base64_encode_mem data = some m
      ∧ m.reads = List.range data.length
      ∧ (∀ i ∈ m.reads, i < data.length)
      ∧ m.writes = List.range (4 * ((data.length + 2) / 3)) ++ [4 * ((data.length + 2) / 3)]
      ∧ m.encoded_data
          = (syms ++ List.replicate ((3 - data.length % 3) % 3) '=').map some ++ [some NUL]
      ∧ syms.length + (3 - data.length % 3) % 3 = 4 * ((data.length + 2) / 3)
      ∧ (∀ c ∈ syms, c ∈ encoding_table)
      ∧ '=' ∉ encoding_table := by
  have hne : data ≠ [] := fun h => by simp [h] at hn
  obtain ⟨syms, hs, hmem⟩ := encoded_chars_shape data
  have hlen := encoded_chars_length data
  rw [hs, List.length_append, List.length_replicate] at hlen
  refine ⟨_, syms, base64_encode_mem_eq data hne, rfl, ?_, ?_, ?_, hlen, hmem, by decide⟩
  · intro i hi
    exact List.mem_range.mp hi
  · exact List.range_succ _
  · simp only [hs]

/-- Witness of C10 on the four-byte input `00 01 02 4D`. -/
theorem base64_encode_writes_witness :
    0 < ([0, 1, 2, 77] : List Byte).length
    ∧ ∃ m syms, base64_encode_mem [0, 1, 2, 77] = some m
      ∧ m.reads = List.range 4
      ∧ (∀ i ∈ m.reads, i < 4)
      ∧ m.writes = List.range 8 ++ [8]
      ∧ m.encoded_data = (syms ++ List.replicate 2 '=').map some ++ [some NUL]
      ∧ syms.length + 2 = 8
      ∧ (∀ c ∈ syms, c ∈ encoding_table)
      ∧ '=' ∉ encoding_table :=
  ⟨by decide, base64_encode_writes [0, 1, 2, 77] (by decide)⟩


/-! ## Lemmas on the cache and the detector -/

theorem hashmap_get_put (key : List Byte) (value : MessageMeta) (cache : Cache) :
    hashmap_get key (hashmap_put key value cache) = some value := by
  induction cache with
  | nil => simp [hashmap_put, hashmap_get]
  | cons e rest ih =>
    obtain ⟨k, v⟩ := e
    by_cases h : k = key
    · simp [hashmap_put, hashmap_get, h]
    · simp [hashmap_put, hashmap_get, h, ih]

theorem steps_newest_of_none (stepped : List Row) (h : steps_newest [] stepped) :
    stepped = [] := by
  match stepped, h with
  | [], _ => rfl
  | [r], h => exact absurd h.1 (List.not_mem_nil r)

theorem preload_once_latched (db : Db) (t : Int) (s : Detector) :
    (preload_once db t s).didLoadHashMap = true := by
  unfold preload_once
  cases h : s.didLoadHashMap <;> simp [h]

theorem preload_once_ready (db : Db) (t : Int) (s : Detector) (h : s.didLoadHashMap = true) :
    preload_once db t s = s := by
  simp [preload_once, h]

theorem preload_once_cache (db : Db) (t : Int) (s : Detector) :
    (preload_once db t s).cache = cache_at_lookup db t s := by
  unfold preload_once cache_at_lookup
  cases s.didLoadHashMap <;> simp

theorem changed_latch (db : Db) (t : Int) (s : Detector)
    (hprep : db.prepare_ok .latest_message = true) :
    (has_chat_db_changed db t s).2.didLoadHashMap = true := by
  have hl := preload_once_latched db t s
  simp only [has_chat_db_changed, hprep, Bool.true_eq_false, if_false]
  cases db.stepped .latest_message with
  | nil => exact hl
  | cons row rest =>
    cases hg : hashmap_get (cstr row.guid) (preload_once db t s).cache with
    | none => simpa [hg] using hl
    | some v => simpa [hg] using hl

theorem changed_preloads (db : Db) (t : Int) (s : Detector)
    (hprep : db.prepare_ok .latest_message = true) :
    (has_chat_db_changed db t s).2.preloads = (preload_once db t s).preloads := by
  simp only [has_chat_db_changed, hprep, Bool.true_eq_false, if_false]
  cases db.stepped .latest_message with
  | nil => rfl
  | cons row rest =>
    cases hg : hashmap_get (cstr row.guid) (preload_once db t s).cache with
    | none => simp [hg]
    | some v => simp [hg]

/-- After a call whose statement was prepared and whose step returned a row, that row is in
the cache. -/
theorem changed_stepped_cached (db : Db) (t : Int) (s : Detector) (row : Row)
    (rest : List Row) (hprep : db.prepare_ok .latest_message = true)
    (hstep : db.stepped .latest_message = row :: rest) :
    ∃ v, hashmap_get (cstr row.guid) (has_chat_db_changed db t s).2.cache = some v := by
  simp only [has_chat_db_changed, hprep, Bool.true_eq_false, if_false, hstep]
  cases hg : hashmap_get (cstr row.guid) (preload_once db t s).cache with
  | none =>
    refine ⟨⟨row.date, decide (column_int row.is_from_me ≠ 0)⟩, ?_⟩
    simp [hashmap_get_put]
  | some v => exact ⟨v, by simp [hg]⟩

theorem changed_result (db : Db) (t : Int) (s : Detector) :
    (has_chat_db_changed db t s).1 = 0 ∨ (has_chat_db_changed db t s).1 = 1 := by
  unfold has_chat_db_changed
  by_cases hprep : db.prepare_ok .latest_message = false
  · simp [hprep]
  · simp only [hprep, if_false]
    cases db.stepped .latest_message with
    | nil => simp
    | cons row rest =>
      cases hg : hashmap_get (cstr row.guid) (preload_once db t s).cache with
      | none =>
        by_cases hme : column_int row.is_from_me = 0 <;> simp [hg, hme]
      | some v => simp [hg]

/-- The call returns 1 exactly when its statement is prepared and its step returns a row
that is absent from the cache at the lookup and whose sender flag reads 0. -/
theorem changed_eq_one_iff (db : Db) (t : Int) (s : Detector) :
    (has_chat_db_changed db t s).1 = 1 ↔
      (db.prepare_ok .latest_message = true
        ∧ ∃ row rest, db.stepped .latest_message = row :: rest
          ∧ hashmap_get (cstr row.guid) (cache_at_lookup db t s) = none
          ∧ column_int row.is_from_me = 0) := by
  rw [← preload_once_cache]
  unfold has_chat_db_changed
  by_cases hprep : db.prepare_ok .latest_message = false
  · simp [hprep]
  · have hp : db.prepare_ok .latest_message = true := by simpa using hprep
    simp only [hprep, if_false, hp, true_and]
    cases hstep : db.stepped .latest_message with
    | nil => simp
    | cons row rest =>
      cases hg : hashmap_get (cstr row.guid) (preload_once db t s).cache with
      | none =>
        by_cases hme : column_int row.is_from_me = 0
        · simp only [hg, hme]
          constructor
          · intro _
            exact ⟨row, rest, rfl, hg, hme⟩
          · intro _
            simp
        · simp only [hg]
          constructor
          · intro h
            simp [hme] at h
          · rintro ⟨row', rest', heq, _, hme'⟩
            obtain ⟨rfl, _⟩ := List.cons.inj heq
            exact absurd hme' hme
      | some v =>
        simp only [hg]
        constructor
        · intro h
          simp at h
        · rintro ⟨row', rest', heq, hg', _⟩
          obtain ⟨rfl, _⟩ := List.cons.inj heq
          rw [hg] at hg'
          exact absurd hg' (by simp)

theorem changed_keeps_inv (db : Db) (t : Int) (s : Detector) (h : latch_inv s) :
    latch_inv (has_chat_db_changed db t s).2 := by
  by_cases hprep : db.prepare_ok .latest_message = true
  · refine ⟨?_, fun hf => ?_⟩
    · rw [changed_preloads db t s hprep]
      unfold preload_once
      cases hl : s.didLoadHashMap with
      | false => simp [h.2 hl]
      | true => simpa using h.1
    · rw [changed_latch db t s hprep] at hf
      exact absurd hf (by simp)
  · have hp : db.prepare_ok .latest_message = false := by simpa using hprep
    simpa [has_chat_db_changed, hp] using h

theorem poll_keeps_inv (calls : List (Db × Int)) :
    ∀ s, latch_inv s → latch_inv (poll s calls) := by
  induction calls with
  | nil => intro s h; exact h
  | cons c rest ih =>
    intro s h
    obtain ⟨db, t⟩ := c
    exact ih _ (changed_keeps_inv db t s h)

/-! ## Lemmas on `get_last_message_text` -/

theorem cstr_of_nonzero (p : List Byte) (h : ∀ b ∈ p, b ≠ 0) : cstr p = p := by
  unfold cstr
  rw [List.takeWhile_eq_self_iff]
  intro b hb
  simpa using h b hb

theorem encoded_bytes_nonzero (data : List Byte) :
    ∀ b ∈ (encoded_chars data).map char_byte, b ≠ 0 := by
  intro b hb
  obtain ⟨c, hc, rfl⟩ := List.mem_map.mp hb
  rcases encoded_chars_mem data c hc with h | h
  · exact (table_chars_plain c h).2.2
  · subst h; decide

theorem text_branch_closed (row : Row) (htext : ∀ t, row.text = some t → cstr t = []) :
    ¬ ((row.text.isSome = true) ∧ strlen (row.text.getD []) > 0) := by
  rintro ⟨h1, h2⟩
  obtain ⟨t, ht⟩ := Option.isSome_iff_exists.mp h1
  simp [ht, strlen, htext t ht] at h2

theorem text_of_no_step (db : Db) (handle_id : Int) (malloc_ok : Bool) (buffer : List Byte)
    (hprep : db.prepare_ok .last_message_text = true)
    (hstep : db.stepped (.last_message_text handle_id) = []) :
    get_last_message_text db handle_id malloc_ok buffer = (none, []) := by
  simp [get_last_message_text, hprep, hstep, memset]

theorem text_of_plain (db : Db) (handle_id : Int) (malloc_ok : Bool) (buffer : List Byte)
    (row : Row) (rest : List Row) (t : List Byte)
    (hprep : db.prepare_ok .last_message_text = true)
    (hstep : db.stepped (.last_message_text handle_id) = row :: rest)
    (htext : row.text = some t) (hne : cstr t ≠ []) :
    get_last_message_text db handle_id malloc_ok buffer
      = (some ((cstr t).take 4095), (cstr t).take 4095) := by
  have hlen : 0 < (cstr t).length := List.length_pos.mpr hne
  simp only [get_last_message_text, hprep, hstep, htext, strlen, strncpy, sizeof_buffer]
  simp [hlen, hne]

theorem text_of_blob (db : Db) (handle_id : Int) (buffer : List Byte)
    (row : Row) (rest : List Row) (b : List Byte)
    (hprep : db.prepare_ok .last_message_text = true)
    (hstep : db.stepped (.last_message_text handle_id) = row :: rest)
    (htext : ∀ t, row.text = some t → cstr t = [])
    (hblob : row.attributedBody = some b) (hne : b ≠ []) :
    get_last_message_text db handle_id true buffer
      = (some (base64_marker ++ ((encoded_chars b).map char_byte).take 4084),
         base64_marker ++ ((encoded_chars b).map char_byte).take 4084) := by
  have hlen : 0 < b.length := List.length_pos.mpr hne
  have hmark : cstr base64_marker = base64_marker := by decide
  have hmlen : base64_marker.length = 11 := by decide
  have henc := cstr_of_nonzero _ (encoded_bytes_nonzero b)
  have hcond := text_branch_closed row htext
  have hmne : base64_marker ≠ [] := by decide
  have hcstr_nil : cstr ([] : List Byte) = [] := rfl
  have htake : List.take 4095 base64_marker = base64_marker :=
    List.take_of_length_le (by rw [hmlen]; omega)
  have hres : base64_marker ++ List.take 4084 (List.map char_byte (encoded_chars b)) ≠ [] := by
    intro h
    exact hmne (List.append_eq_nil.mp h).1
  simp only [get_last_message_text, memset, hprep, hstep, hblob, base64_encode_eq,
    Bool.true_eq_false, if_false, if_true, Option.getD_some, Option.isSome_some]
  rw [if_neg hcond]
  simp only [strncat, strlen, sizeof_buffer, hcstr_nil, List.length_nil, List.nil_append,
    hmark, htake, hmlen, henc, Nat.sub_zero, Nat.reduceSub, gt_iff_lt, hlen, and_self,
    if_true, ne_eq, hres, not_false_eq_true]

theorem text_of_blob_unallocated (db : Db) (handle_id : Int) (buffer : List Byte)
    (row : Row) (rest : List Row) (b : List Byte)
    (hprep : db.prepare_ok .last_message_text = true)
    (hstep : db.stepped (.last_message_text handle_id) = row :: rest)
    (htext : ∀ t, row.text = some t → cstr t = [])
    (hblob : row.attributedBody = some b) (hne : b ≠ []) :
    get_last_message_text db handle_id false buffer = (some base64_marker, base64_marker) := by
  have hlen : 0 < b.length := List.length_pos.mpr hne
  have hmark : cstr base64_marker = base64_marker := by decide
  have hmlen : base64_marker.length = 11 := by decide
  have hcond := text_branch_closed row htext
  have hmne : base64_marker ≠ [] := by decide
  have hcstr_nil : cstr ([] : List Byte) = [] := rfl
  have htake : List.take 4095 base64_marker = base64_marker :=
    List.take_of_length_le (by rw [hmlen]; omega)
  simp only [get_last_message_text, memset, hprep, hstep, hblob,
    Bool.true_eq_false, if_false, Option.getD_some, Option.isSome_some]
  rw [if_neg hcond]
  simp only [strncat, strlen, sizeof_buffer, hcstr_nil, List.length_nil, List.nil_append,
    hmark, htake, Nat.sub_zero, Nat.reduceSub, gt_iff_lt, hlen, and_self,
    if_true, ne_eq, hmne, not_false_eq_true, Bool.false_eq_true, if_false]

theorem text_of_nothing (db : Db) (handle_id : Int) (malloc_ok : Bool) (buffer : List Byte)
    (row : Row) (rest : List Row)
    (hprep : db.prepare_ok .last_message_text = true)
    (hstep : db.stepped (.last_message_text handle_id) = row :: rest)
    (htext : ∀ t, row.text = some t → cstr t = [])
    (hblob : row.attributedBody = none ∨ row.attributedBody = some []) :
    get_last_message_text db handle_id malloc_ok buffer = (none, []) := by
  have hcond := text_branch_closed row htext
  simp only [get_last_message_text, memset, hprep, hstep]
  rcases hblob with hb | hb <;> simp [hcond, hb]

theorem pair_holds_result (x : List Byte) :
    ((if x ≠ [] then some x else none : Option (List Byte)), x).2
      = (((if x ≠ [] then some x else none : Option (List Byte)), x).1).getD [] := by
  by_cases hx : x = [] <;> simp [hx]

/-- On return the static buffer holds the string returned, and is empty for `NULL`. -/
theorem buffer_holds_result (db : Db) (handle_id : Int) (malloc_ok : Bool)
    (buffer : List Byte) :
    (get_last_message_text db handle_id malloc_ok buffer).2
      = ((get_last_message_text db handle_id malloc_ok buffer).1).getD [] := by
  unfold get_last_message_text
  by_cases hprep : db.prepare_ok .last_message_text = false
  · simp [hprep, memset]
  · simp only [hprep, if_false]
    exact pair_holds_result _

/-! ## Claims on the change detector -/

/-- C3, as stated, fails on the first call: the statement is prepared, its step returns the
store's only row, a received message whose identifier is absent from the (empty) cache, yet
`has_chat_db_changed` returns 0, because the one-shot preload with threshold 0 has already
put that identifier into the cache. -/
theorem new_from_other_first_call_counterexample :
    (open_db [incoming_row]).answers .latest_message
    ∧ (open_db [incoming_row]).answers (.recent_messages 0)
    ∧ (open_db [incoming_row]).stepped .latest_message = [incoming_row]
    ∧ hashmap_get (cstr incoming_row.guid) Detector.start.cache = none
    ∧ incoming_row.is_from_me = 0
    ∧ (has_chat_db_changed (open_db [incoming_row]) 0 Detector.start).1 = 0 := by
  decide

/-- C3, amended: when the detector's statement is prepared and its step returns a row
(under `Db.answers`, a row of greatest date of the store) that has `is_from_me = 0` and an
identifier absent from the cache at the lookup (the cache of the caller when the latch is
set, the preloaded cache on the call that sets the latch), then `has_chat_db_changed`
returns 1 and afterwards the cache maps the identifier to the row's timestamp and sender
flag. -/
theorem new_from_other (db : Db) (last_known_time : Int) (s : Detector) (row : Row)
    (hprep : db.prepare_ok .latest_message = true)
    (hans : db.answers .latest_message)
    (hstep : db.stepped .latest_message = [row])
    (habsent : hashmap_get (cstr row.guid) (cache_at_lookup db last_known_time s) = none)
    (hother : row.is_from_me = 0) :
    newest_of db.message row
    ∧ (has_chat_db_changed db last_known_time s).1 = 1
    ∧ hashmap_get (cstr row.guid) (has_chat_db_changed db last_known_time s).2.cache
        = some { date := row.date, isFromMe := false } := by
  rw [← preload_once_cache] at habsent
  have h0 : column_int 0 = 0 := by decide
  refine ⟨?_, ?_⟩
  · simpa [Db.answers, hstep, steps_newest] using hans
  · simp [has_chat_db_changed, hprep, hstep, habsent, hother, h0, hashmap_get_put]

/-- Witness of C3 (amended): a received message polled with the latch set and an empty
cache. -/
theorem new_from_other_witness :
    newest_of (open_db [incoming_row]).message incoming_row
    ∧ (has_chat_db_changed (open_db [incoming_row]) 0 Detector.ready).1 = 1
    ∧ hashmap_get (cstr incoming_row.guid)
        (has_chat_db_changed (open_db [incoming_row]) 0 Detector.ready).2.cache
        = some { date := incoming_row.date, isFromMe := false } :=
  new_from_other (open_db [incoming_row]) 0 Detector.ready incoming_row rfl (by decide)
    (by decide) (by decide) rfl

/-- C4, as stated, fails: for a sent message whose identifier is absent from the cache,
`has_chat_db_changed` returns 0, the very value it returns for an empty store (no
change). -/
theorem new_from_self_counterexample :
    (open_db [outgoing_row]).answers .latest_message
    ∧ (open_db [outgoing_row]).stepped .latest_message = [outgoing_row]
    ∧ hashmap_get (cstr outgoing_row.guid) Detector.ready.cache = none
    ∧ outgoing_row.is_from_me = 1
    ∧ (has_chat_db_changed (open_db [outgoing_row]) 0 Detector.ready).1 = 0
    ∧ (has_chat_db_changed (open_db [outgoing_row]) 0 Detector.ready).1
        = (has_chat_db_changed (open_db []) 0 Detector.ready).1 := by
  decide

/-- C4, amended: when the detector's statement is prepared and its step returns a row
(under `Db.answers`, a row of greatest date of the store) whose `is_from_me`, read by
`sqlite3_column_int`, is not 0, and whose identifier is absent from the cache at the lookup,
then `has_chat_db_changed` inserts the record (timestamp, flag true) into the cache and
returns 0, which is also what every call returns whose step returns no row (no change). -/
theorem new_from_self (db : Db) (last_known_time : Int) (s : Detector) (row : Row)
    (hprep : db.prepare_ok .latest_message = true)
    (hans : db.answers .latest_message)
    (hstep : db.stepped .latest_message = [row])
    (habsent : hashmap_get (cstr row.guid) (cache_at_lookup db last_known_time s) = none)
    (hself : column_int row.is_from_me ≠ 0) :
    newest_of db.message row
    ∧ (has_chat_db_changed db last_known_time s).1 = 0
    ∧ hashmap_get (cstr row.guid) (has_chat_db_changed db last_known_time s).2.cache
        = some { date := row.date, isFromMe := true }
    ∧ (∀ (db0 : Db) (t0 : Int) (s0 : Detector), db0.stepped .latest_message = [] →
        (has_chat_db_changed db0 t0 s0).1 = 0) := by
  rw [← preload_once_cache] at habsent
  refine ⟨?_, ?_, ?_, ?_⟩
  · simpa [Db.answers, hstep, steps_newest] using hans
  · simp [has_chat_db_changed, hprep, hstep, habsent, hself]
  · simp [has_chat_db_changed, hprep, hstep, habsent, hself, hashmap_get_put]
  · intro db0 t0 s0 h0
    unfold has_chat_db_changed
    by_cases hp : db0.prepare_ok .latest_message = false
    · simp [hp]
    · simp [hp, h0]

/-- Witness of C4 (amended): a sent message polled with the latch set and an empty cache. -/
theorem new_from_self_witness :
    newest_of (open_db [outgoing_row]).message outgoing_row
    ∧ (has_chat_db_changed (open_db [outgoing_row]) 0 Detector.ready).1 = 0
    ∧ hashmap_get (cstr outgoing_row.guid)
        (has_chat_db_changed (open_db [outgoing_row]) 0 Detector.ready).2.cache
        = some { date := outgoing_row.date, isFromMe := true }
    ∧ (has_chat_db_changed (open_db []) 0 Detector.ready).1 = 0 :=
  have h := new_from_self (open_db [outgoing_row]) 0 Detector.ready outgoing_row rfl
    (by decide) (by decide) (by decide) (by decide)
  ⟨h.1, h.2.1, h.2.2.1, h.2.2.2 (open_db []) 0 Detector.ready rfl⟩

/-- C5, as stated, fails twice over.  From the start state, with a threshold above the only
row's date, the first of two calls on the same store returns 1, not 0.  And with the rows
unchanged, a first call whose step fails (`SQLITE_BUSY`) caches nothing, so that the second
call, whose step succeeds, returns 1. -/
theorem idempotence_counterexample :
    (has_chat_db_changed (open_db [incoming_row]) 100 Detector.start).1 = 1
    ∧ ((busy_db [incoming_row]).message = (open_db [incoming_row]).message
      ∧ (busy_db [incoming_row]).prepare_ok .latest_message
          = (open_db [incoming_row]).prepare_ok .latest_message
      ∧ (has_chat_db_changed (busy_db [incoming_row]) 100 Detector.start).1 = 0
      ∧ (has_chat_db_changed (open_db [incoming_row]) 100
          (has_chat_db_changed (busy_db [incoming_row]) 100 Detector.start).2).1 = 1) := by
  decide

/-- C5, amended: for every cache state, latch state and thresholds, when
`has_chat_db_changed` is called twice and its statement has the same prepare outcome and the
same step result on both calls, the second call returns 0 and leaves the cache, the latch
and the preload log exactly as the first call left them; the first call returns 1 exactly
when its statement is prepared and its step returns a row that is absent from the cache at
the lookup and whose sender flag reads 0, and returns 0 otherwise. -/
theorem second_call_no_change (db1 db2 : Db) (t1 t2 : Int) (s : Detector)
    (hprep : db2.prepare_ok .latest_message = db1.prepare_ok .latest_message)
    (hstep : db2.stepped .latest_message = db1.stepped .latest_message) :
    has_chat_db_changed db2 t2 (has_chat_db_changed db1 t1 s).2
        = (0, (has_chat_db_changed db1 t1 s).2)
    ∧ ((has_chat_db_changed db1 t1 s).1 = 1 ↔
        (db1.prepare_ok .latest_message = true
          ∧ ∃ row rest, db1.stepped .latest_message = row :: rest
            ∧ hashmap_get (cstr row.guid) (cache_at_lookup db1 t1 s) = none
            ∧ column_int row.is_from_me = 0))
    ∧ ((has_chat_db_changed db1 t1 s).1 = 0 ∨ (has_chat_db_changed db1 t1 s).1 = 1) := by
  refine ⟨?_, changed_eq_one_iff db1 t1 s, changed_result db1 t1 s⟩
  by_cases h1 : db1.prepare_ok .latest_message = true
  · have h2 : db2.prepare_ok .latest_message = true := by rw [hprep, h1]
    have hl := changed_latch db1 t1 s h1
    generalize hs1 : (has_chat_db_changed db1 t1 s).2 = s1 at hl
    cases hrow : db1.stepped .latest_message with
    | nil =>
      simp [has_chat_db_changed, h2, hstep, hrow, preload_once_ready db2 t2 s1 hl]
    | cons row rest =>
      obtain ⟨v, hv⟩ := changed_stepped_cached db1 t1 s row rest h1 hrow
      rw [hs1] at hv
      simp [has_chat_db_changed, h2, hstep, hrow, preload_once_ready db2 t2 s1 hl, hv]
  · have h1f : db1.prepare_ok .latest_message = false := by simpa using h1
    have h2f : db2.prepare_ok .latest_message = false := by rw [hprep, h1f]
    simp [has_chat_db_changed, h1f, h2f]

/-- Witness of C5 (amended): two polls of the same one-row store from the start state. -/
theorem second_call_no_change_witness :
    has_chat_db_changed (open_db [incoming_row]) 100
        (has_chat_db_changed (open_db [incoming_row]) 100 Detector.start).2
        = (0, (has_chat_db_changed (open_db [incoming_row]) 100 Detector.start).2)
    ∧ (has_chat_db_changed (open_db [incoming_row]) 100 Detector.start).1 = 1 :=
  have h := second_call_no_change (open_db [incoming_row]) (open_db [incoming_row]) 100 100
    Detector.start rfl rfl
  ⟨h.1, h.2.1.mpr ⟨rfl, incoming_row, [], by decide, by decide, by decide⟩⟩

/-- C6: over any finite sequence of calls of `has_chat_db_changed` from the start state
(latch unset), each with its own store rows, threshold, outcome of every statement
preparation and result of every step, `preload_hashmap` is called at most once. -/
theorem preload_at_most_once (calls : List (Db × Int)) :
    (poll Detector.start calls).preloads.length ≤ 1 :=
  (poll_keeps_inv calls Detector.start ⟨by decide, fun _ => rfl⟩).1

/-- C8, as stated, fails for `get_last_message_text`: a first call returns a pointer to the
static buffer holding `hi`; a second call, whose statement cannot be prepared, returns `NULL`
but has zeroed the buffer before the prepare test, so the string returned earlier is gone. -/
theorem prepare_failure_counterexample :
    get_last_message_text (open_db [incoming_row]) 7 true [] = (some [104, 105], [104, 105])
    ∧ (locked_db [incoming_row]).prepare_ok .last_message_text = false
    ∧ get_last_message_text (locked_db [incoming_row]) 7 true [104, 105] = (none, [])
    ∧ ([] : List Byte) ≠ [104, 105] := by
  decide

/-- C8, amended: when its statement cannot be prepared, `get_last_message_text` returns
`NULL` and leaves its static buffer zeroed, whatever string an earlier call had left in it;
`get_last_talked_to` returns -1; `preload_hashmap` leaves the cache as it was; and
`has_chat_db_changed` returns 0 and leaves the cache, the latch and the preload log as they
were. -/
theorem prepare_failure_no_result (db : Db) (handle_id last_known_time : Int)
    (malloc_ok : Bool) (buffer : List Byte) (cache : Cache) (s : Detector) :
    (db.prepare_ok .last_message_text = false →
        get_last_message_text db handle_id malloc_ok buffer = (none, []))
    ∧ (db.prepare_ok .last_talked_to = false → get_last_talked_to db handle_id = -1)
    ∧ (db.prepare_ok .recent_messages = false →
        preload_hashmap db last_known_time cache = cache)
    ∧ (db.prepare_ok .latest_message = false →
        has_chat_db_changed db last_known_time s = (0, s)) := by
  refine ⟨fun h => ?_, fun h => ?_, fun h => ?_, fun h => ?_⟩
  · simp [get_last_message_text, memset, h]
  · simp [get_last_talked_to, h]
  · simp [preload_hashmap, h]
  · simp [has_chat_db_changed, h]

/-- Witness of C8 (amended): a store with two rows on which no statement can be prepared,
with `hi` in the static buffer. -/
theorem prepare_failure_no_result_witness :
    get_last_message_text (locked_db [incoming_row, outgoing_row]) 7 true [104, 105]
        = (none, [])
    ∧ get_last_talked_to (locked_db [incoming_row, outgoing_row]) 7 = -1
    ∧ preload_hashmap (locked_db [incoming_row, outgoing_row]) 0 [] = []
    ∧ has_chat_db_changed (locked_db [incoming_row, outgoing_row]) 0 Detector.start
        = (0, Detector.start) :=
  have h := prepare_failure_no_result (locked_db [incoming_row, outgoing_row]) 7 0 true
    [104, 105] [] Detector.start
  ⟨h.1 rfl, h.2.1 rfl, h.2.2.1 rfl, h.2.2.2 rfl⟩

/-- C9, as stated, fails: when the detector's statement cannot be prepared, the first call
returns with the latch still unset and no preload performed. -/
theorem first_call_counterexample :
    (has_chat_db_changed (locked_db [incoming_row]) 0 Detector.start).2.didLoadHashMap = false
    ∧ (has_chat_db_changed (locked_db [incoming_row]) 0 Detector.start).2.preloads = [] := by
  decide

/-- C9, amended: starting with the latch unset, a call of `has_chat_db_changed` whose own
statement is prepared calls `preload_hashmap` exactly once, with the caller's
`last_known_time`, and sets the latch, for every store and every result of the call; the
cache afterwards is the preloaded cache, with the row the step returned added when it was
not in it. -/
theorem first_call_preloads (db : Db) (last_known_time : Int) (s : Detector)
    (hlatch : s.didLoadHashMap = false)
    (hprep : db.prepare_ok .latest_message = true) :
    (has_chat_db_changed db last_known_time s).2.didLoadHashMap = true
    ∧ (has_chat_db_changed db last_known_time s).2.preloads = s.preloads ++ [last_known_time]
    ∧ ((has_chat_db_changed db last_known_time s).2.cache
          = preload_hashmap db last_known_time s.cache
        ∨ ∃ row rest value, db.stepped .latest_message = row :: rest
            ∧ hashmap_get (cstr row.guid) (preload_hashmap db last_known_time s.cache) = none
            ∧ (has_chat_db_changed db last_known_time s).2.cache
                = hashmap_put (cstr row.guid) value
                    (preload_hashmap db last_known_time s.cache)) := by
  have hp : preload_once db last_known_time s
      = { cache := preload_hashmap db last_known_time s.cache, didLoadHashMap := true,
          preloads := s.preloads ++ [last_known_time] } := by
    simp [preload_once, hlatch]
  refine ⟨changed_latch db last_known_time s hprep, ?_, ?_⟩
  · rw [changed_preloads db last_known_time s hprep, hp]
  · simp only [has_chat_db_changed, hprep, Bool.true_eq_false, if_false, hp]
    cases hrow : db.stepped .latest_message with
    | nil => exact Or.inl rfl
    | cons row rest =>
      cases hg : hashmap_get (cstr row.guid) (preload_hashmap db last_known_time s.cache) with
      | none =>
        refine Or.inr
          ⟨row, rest, ⟨row.date, decide (column_int row.is_from_me ≠ 0)⟩, rfl, hg, ?_⟩
        simp [hg]
      | some v =>
        refine Or.inl ?_
        simp [hg]

/-- Witness of C9 (amended): the first call on a one-row store, with threshold 5. -/
theorem first_call_preloads_witness :
    (has_chat_db_changed (open_db [incoming_row]) 5 Detector.start).2.didLoadHashMap = true
    ∧ (has_chat_db_changed (open_db [incoming_row]) 5 Detector.start).2.preloads = [5] :=
  have h := first_call_preloads (open_db [incoming_row]) 5 Detector.start rfl rfl
  ⟨h.1, h.2.1⟩

/-! ## Claim on `get_last_message_text` -/

/-- C7, as stated, fails in its last two cases: for a newest row with neither plain text nor
`attributedBody` the function returns `NULL`, not the sentinel followed by an encoding; and a
plain text of 4096 bytes is returned cut to 4095 bytes, not unchanged.  In both stores the
statement is prepared and its step returns the row. -/
theorem last_message_text_counterexample :
    ((open_db [bare_row]).answers (.last_message_text 9)
      ∧ (open_db [bare_row]).stepped (.last_message_text 9) = [bare_row]
      ∧ bare_row.text = none
      ∧ (get_last_message_text (open_db [bare_row]) 9 true []).1 = none)
    ∧ ((open_db [long_row]).stepped (.last_message_text 5) = [long_row]
      ∧ long_row.text = some (List.replicate 4096 97)
      ∧ (get_last_message_text (open_db [long_row]) 5 true []).1
          = some (List.replicate 4095 97)) := by
  have hstep : (open_db [long_row]).stepped (.last_message_text 5) = [long_row] := by
    rfl
  have hc : cstr (List.replicate 4096 (97 : Byte)) = List.replicate 4096 97 := by
    apply cstr_of_nonzero
    intro b hb
    rw [List.eq_of_mem_replicate hb]
    decide
  refine ⟨by decide, hstep, rfl, ?_⟩
  rw [text_of_plain (open_db [long_row]) 5 true [] long_row [] (List.replicate 4096 97) rfl
    hstep rfl
    (by rw [hc]; intro h; have := congrArg List.length h; rw [List.length_replicate] at this;
        exact absurd this (by decide)), hc, List.take_replicate]
  rfl

/-- C7, amended: when the statement is prepared, `get_last_message_text` returns `NULL` when
the store has no row for the handle, and also when the step returns no row because it
failed.  When the step returns a row (a row of greatest date among those of the handle): if
its plain text is present and non-empty the result is that text up to its first zero byte,
cut to 4095 bytes (so unchanged when it has no zero byte and at most 4095 bytes); otherwise,
if `attributedBody` is present and non-empty, the result is `__BASE64__:` followed by the
first 4084 characters of the Base64 encoding of the payload (all of it when the payload has
at most 3063 bytes), or `__BASE64__:` alone when the allocation in `base64_encode` fails;
otherwise the result is `NULL`.  On return the static buffer holds the string returned, and
is empty when `NULL` is returned. -/
theorem last_message_text_cases (db : Db) (handle_id : Int) (malloc_ok : Bool)
    (buffer : List Byte)
    (hprep : db.prepare_ok .last_message_text = true)
    (hans : db.answers (.last_message_text handle_id)) :
    ((∀ r ∈ db.message, r.handle_id ≠ handle_id) →
        get_last_message_text db handle_id malloc_ok buffer = (none, []))
    ∧ (db.stepped (.last_message_text handle_id) = [] →
        get_last_message_text db handle_id malloc_ok buffer = (none, []))
    ∧ (∀ row, db.stepped (.last_message_text handle_id) = [row] →
        newest_of (db.message.filter fun r => r.handle_id = handle_id) row)
    ∧ (∀ row t, db.stepped (.last_message_text handle_id) = [row] → row.text = some t →
        cstr t ≠ [] →
        (get_last_message_text db handle_id malloc_ok buffer).1 = some ((cstr t).take 4095)
        ∧ ((∀ b ∈ t, b ≠ 0) → t.length ≤ 4095 →
            (get_last_message_text db handle_id malloc_ok buffer).1 = some t))
    ∧ (∀ row blob, db.stepped (.last_message_text handle_id) = [row] →
        (∀ t, row.text = some t → cstr t = []) → row.attributedBody = some blob →
        blob ≠ [] →
        (malloc_ok = true →
          ∃ encoded, base64_encode blob = some encoded
            ∧ (get_last_message_text db handle_id malloc_ok buffer).1
                = some (base64_marker ++ (encoded.map char_byte).take 4084)
            ∧ (blob.length ≤ 3063 →
                (get_last_message_text db handle_id malloc_ok buffer).1
                  = some (base64_marker ++ encoded.map char_byte)))
        ∧ (malloc_ok = false →
            (get_last_message_text db handle_id malloc_ok buffer).1 = some base64_marker))
    ∧ (∀ row, db.stepped (.last_message_text handle_id) = [row] →
        (∀ t, row.text = some t → cstr t = []) →
        (row.attributedBody = none ∨ row.attributedBody = some []) →
        get_last_message_text db handle_id malloc_ok buffer = (none, []))
    ∧ (get_last_message_text db handle_id malloc_ok buffer).2
        = ((get_last_message_text db handle_id malloc_ok buffer).1).getD [] := by
  refine ⟨fun hno => ?_, fun hstep => ?_, fun row hstep => ?_,
    fun row t hstep htext hne => ⟨?_, fun hnz hlen => ?_⟩,
    fun row blob hstep htext hblob hne => ⟨fun hm => ?_, fun hm => ?_⟩,
    fun row hstep htext hblob => ?_, ?_⟩
  · apply text_of_no_step db handle_id malloc_ok buffer hprep
    apply steps_newest_of_none
    have hnil : (db.message.filter fun r => decide (r.handle_id = handle_id)) = [] := by
      rw [List.filter_eq_nil_iff]
      intro r hr
      simpa using hno r hr
    rw [← hnil]
    exact hans
  · exact text_of_no_step db handle_id malloc_ok buffer hprep hstep
  · simpa [Db.answers, hstep, steps_newest] using hans
  · rw [text_of_plain db handle_id malloc_ok buffer row [] t hprep hstep htext hne]
  · rw [text_of_plain db handle_id malloc_ok buffer row [] t hprep hstep htext hne,
      cstr_of_nonzero t hnz, List.take_of_length_le hlen]
  · subst hm
    have h := text_of_blob db handle_id buffer row [] blob hprep hstep htext hblob hne
    refine ⟨encoded_chars blob, base64_encode_eq blob, by rw [h], fun hlen => ?_⟩
    rw [h, List.take_of_length_le]
    rw [List.length_map, encoded_chars_length]
    omega
  · subst hm
    rw [text_of_blob_unallocated db handle_id buffer row [] blob hprep hstep htext hblob hne]
  · exact text_of_nothing db handle_id malloc_ok buffer row [] hprep hstep htext hblob
  · exact buffer_holds_result db handle_id malloc_ok buffer

/-- Witness of C7 (amended): the newest message of handle 7 is the sent one, which has no
plain text and the payload `00 01 02`; the result is the sentinel followed by `AAEC`. -/
theorem last_message_text_cases_witness :
    (open_db [incoming_row, outgoing_row]).prepare_ok .last_message_text = true
    ∧ (open_db [incoming_row, outgoing_row]).answers (.last_message_text 7)
    ∧ (open_db [incoming_row, outgoing_row]).stepped (.last_message_text 7) = [outgoing_row]
    ∧ ∃ encoded, base64_encode [0, 1, 2] = some encoded
      ∧ (get_last_message_text (open_db [incoming_row, outgoing_row]) 7 true []).1
          = some (base64_marker ++ (encoded.map char_byte).take 4084)
      ∧ (([0, 1, 2] : List Byte).length ≤ 3063 →
          (get_last_message_text (open_db [incoming_row, outgoing_row]) 7 true []).1
            = some (base64_marker ++ encoded.map char_byte)) :=
  ⟨rfl, by decide, by decide,
    ((last_message_text_cases (open_db [incoming_row, outgoing_row]) 7 true [] rfl
      (by decide)).2.2.2.2.1 outgoing_row [0, 1, 2] (by decide) (by decide) rfl
      (by decide)).1 rfl⟩

end Messages
